import Mathlib

/-!
Verification development for the ccTLD WHOIS parser (`whois-parser.js`).

The parser's `parseWhoisData` function and the helper closures it defines
(`normalizeDateString`, `parseField`, `parseMultipleFields`,
`parseNameservers`, `parseStatus`, `parseCreationDate`, `parseExpiryDate`)
are embedded shallowly below.  Text is modelled as `List Char`; each
JavaScript regular expression used by the source is compiled by hand into an
executable matcher with the same semantics (leftmost match, greedy
quantifiers with backtracking, the `i` and `g` flags where the source uses
them).  The call `new Date().getFullYear()` inside the recurring-date rule is
made explicit as a `currentYear : Nat` argument.  Subexpressions that could
throw a TypeError (`match.split(':')[1].trim()` on a colonless match) return
`Option`, with `none` as the thrown exception, so that totality is a theorem
rather than an assumption.
-/

/-- JavaScript whitespace, i.e. the `\s` regular-expression class, which is
also the character set removed by `String.prototype.trim`: space, tab, line
feed, carriage return, vertical tab, form feed, no-break space, Ogham space
mark, the U+2000..U+200A spaces, line separator, paragraph separator, narrow
no-break space, medium mathematical space, ideographic space and the BOM. -/
def isJsWs (c : Char) : Bool :=
  c = ' ' || c = '\t' || c = '\n' || c = '\r' || c = '\u000B' || c = '\u000C' ||
  c = '\u00A0' || c = '\u1680' || ('\u2000' ≤ c && c ≤ '\u200A') || c = '\u2028' ||
  c = '\u2029' || c = '\u202F' || c = '\u205F' || c = '\u3000' || c = '\uFEFF'

/-- JavaScript line terminators; the regular-expression `.` matches every
character except these. -/
def isLineTerm (c : Char) : Bool :=
  c = '\n' || c = '\r' || c = '\u2028' || c = '\u2029'

/-- Whether the regular-expression `.` matches the character. -/
def dotMatches (c : Char) : Bool := !(isLineTerm c)

/-- The regular-expression `\d` class. -/
def isDigitCh (c : Char) : Bool := '0' ≤ c && c ≤ '9'

/-- The regular-expression `\w` class: ASCII letters, digits and underscore. -/
def isWordCh (c : Char) : Bool :=
  ('a' ≤ c && c ≤ 'z') || ('A' ≤ c && c ≤ 'Z') || isDigitCh c || c = '_'

/-- Case-insensitive character comparison, as the `i` flag and
`toLowerCase` behave on the ASCII characters this parser compares
(`Char.toLower` lowers exactly the ASCII uppercase letters). -/
def ciEq (a b : Char) : Bool := a.toLower = b.toLower

/-- The character-list form of `String.prototype.trim`. -/
def listTrim (cs : List Char) : List Char :=
  ((cs.dropWhile isJsWs).reverse.dropWhile isJsWs).reverse

/-- String form of `listTrim`. -/
def jsTrimStr (s : String) : String := String.mk (listTrim s.data)

/-- The idiom `value.split(/\s+/)[0]`: the leading run of non-whitespace
characters, empty when the string is empty or starts with whitespace. -/
def firstWsToken (cs : List Char) : List Char := cs.takeWhile (fun c => !(isJsWs c))

/-- The method `String.prototype.split` with a one-character separator. -/
def jsSplitChar (sep : Char) : List Char → List (List Char)
  | [] => [[]]
  | c :: cs =>
    if c = sep then [] :: jsSplitChar sep cs
    else
      match jsSplitChar sep cs with
      | [] => [[c]]
      | t :: ts => (c :: t) :: ts

/-- The idiom `.replace(/\.$/, '')`: drop one trailing dot, if present. -/
def stripTrailingDot (cs : List Char) : List Char :=
  match cs.getLast? with
  | some '.' => cs.dropLast
  | _ => cs

/-- The call `day.padStart(2, '0')`. -/
def padStart2 (cs : List Char) : List Char :=
  List.replicate (2 - cs.length) '0' ++ cs

/-- ASCII lower casing of a character list (`month.toLowerCase()` on the
`\w` characters captured as a month name). -/
def toLowerList (cs : List Char) : List Char := cs.map Char.toLower

/-- Decimal digits of a natural number, as template-literal interpolation
renders a JavaScript number; the fuel argument only bounds the recursion
depth and `n + 1` is always enough. -/
def natReprAux : Nat → Nat → List Char
  | 0, _ => []
  | fuel + 1, n =>
    if n < 10 then [Char.ofNat (48 + n)]
    else natReprAux fuel (n / 10) ++ [Char.ofNat (48 + n % 10)]

/-- Decimal representation of a natural number. -/
def natRepr (n : Nat) : List Char := natReprAux (n + 1) n

/-- The method `Array.prototype.map` over a callback that may throw: the
first exception aborts the whole call. -/
def mapOption (f : α → Option β) : List α → Option (List β)
  | [] => some []
  | a :: l =>
    match f a with
    | none => none
    | some b =>
      match mapOption f l with
      | none => none
      | some bs => some (b :: bs)

/-- Match a literal pattern case-insensitively against a prefix of the text;
returns the text characters consumed and the remainder. -/
def stripLitCI : List Char → List Char → Option (List Char × List Char)
  | [], cs => some ([], cs)
  | _ :: _, [] => none
  | p :: ps, c :: cs =>
    if ciEq p c then
      match stripLitCI ps cs with
      | some (taken, rest) => some (c :: taken, rest)
      | none => none
    else none

/-- Whether the text starts with the literal pattern, case-insensitively. -/
def startsWithCI (pat : List Char) (cs : List Char) : Bool :=
  (stripLitCI pat cs).isSome

/-- Greedy `(.+)`: the maximal nonempty run of non-line-terminator
characters at the current position, with the remainder. -/
def capDotPlus (cs : List Char) : Option (List Char × List Char) :=
  match cs with
  | [] => none
  | c :: _ =>
    if dotMatches c then
      some (cs.takeWhile dotMatches, cs.drop (cs.takeWhile dotMatches).length)
    else none

/-- The tail `\s*(.+)` (or `\s+(.+)` when `atLeastOne` is set) of the
colon-form patterns, with regex backtracking: the greedy `\s*` tries longer
whitespace prefixes first; `j` is the whitespace length tried next.  Returns
the whitespace consumed, the capture, and the remainder. -/
def wsCapDown (cs : List Char) (atLeastOne : Bool) :
    Nat → Option (List Char × List Char × List Char)
  | 0 =>
    if atLeastOne then none
    else
      match capDotPlus cs with
      | some (cap, rest) => some ([], cap, rest)
      | none => none
  | j + 1 =>
    match capDotPlus (cs.drop (j + 1)) with
    | some (cap, rest) => some (cs.take (j + 1), cap, rest)
    | none => wsCapDown cs atLeastOne j

/-- The tail `\s*(.+)`. -/
def wsStarCap (cs : List Char) : Option (List Char × List Char × List Char) :=
  wsCapDown cs false ((cs.takeWhile isJsWs).length)

/-- The tail `\s+(.+)`. -/
def wsPlusCap (cs : List Char) : Option (List Char × List Char × List Char) :=
  wsCapDown cs true ((cs.takeWhile isJsWs).length)

/-- One attempt, at the current position, of a colon-form pattern
`<field><gap>*:\s*(.+)` (case-insensitive), where `gap` is the character
class the pattern allows between the label and the colon: `[\.\s]` in
`parseField`, `\s` in the nameserver patterns, and empty in
`parseMultipleFields`.  Since `:` belongs to none of these classes, the
greedy gap run is the only viable one.  Returns the full match, the capture
and the remainder. -/
def colonFormAt (gap : Char → Bool) (field : List Char) (cs : List Char) :
    Option (List Char × List Char × List Char) :=
  match stripLitCI field cs with
  | none => none
  | some (taken, rest1) =>
    let gapRun := rest1.takeWhile gap
    match rest1.drop gapRun.length with
    | ':' :: rest2 =>
      match wsStarCap rest2 with
      | some (ws, cap, rest) => some (taken ++ gapRun ++ ':' :: (ws ++ cap), cap, rest)
      | none => none
    | _ => none

/-- One attempt of a bracketed-form pattern `\[<field>\]\s+(.+)`
(case-insensitive).  Returns the full match, the capture and the
remainder. -/
def bracketFormAt (field : List Char) (cs : List Char) :
    Option (List Char × List Char × List Char) :=
  match cs with
  | '[' :: cs1 =>
    match stripLitCI field cs1 with
    | none => none
    | some (taken, rest1) =>
      match rest1 with
      | ']' :: rest2 =>
        match wsPlusCap rest2 with
        | some (ws, cap, rest) => some ('[' :: taken ++ ']' :: (ws ++ cap), cap, rest)
        | none => none
      | _ => none
  | _ => none

/-- Unanchored regex search (`String.prototype.match` without the `g`
flag): try the pattern attempt at each position, leftmost first. -/
def searchPos (att : List Char → Option α) : List Char → Option α
  | [] => att []
  | c :: cs =>
    match att (c :: cs) with
    | some r => some r
    | none => searchPos att cs

/-- Global regex scan (`match` with the `g` flag): collect successive
non-overlapping matches, resuming after each match's end.  The fuel bounds
the number of scan steps; every step either advances one position or
consumes a nonempty match (all matchers used here consume at least the `:`
or `]` character), so `cs.length + 1` steps always suffice. -/
def matchAllAux (att : List Char → Option (List Char × List Char × List Char)) :
    Nat → List Char → List (List Char × List Char)
  | 0, _ => []
  | fuel + 1, cs =>
    match att cs with
    | some (m, cap, rest) => (m, cap) :: matchAllAux att fuel rest
    | none =>
      match cs with
      | [] => []
      | _ :: cs' => matchAllAux att fuel cs'

/-- All matches of a pattern, with their captures, in text order. -/
def matchAll (att : List Char → Option (List Char × List Char × List Char))
    (cs : List Char) : List (List Char × List Char) :=
  matchAllAux att (cs.length + 1) cs


/-- The alternation `(?:st|nd|rd|th)`, case-insensitively; returns the two
characters as they appear in the text and the remainder. -/
def stripOrdinal (cs : List Char) : Option (List Char × List Char) :=
  match cs with
  | a :: b :: rest =>
    if [a.toLower, b.toLower] = ['s', 't'] || [a.toLower, b.toLower] = ['n', 'd'] ||
        [a.toLower, b.toLower] = ['r', 'd'] || [a.toLower, b.toLower] = ['t', 'h'] then
      some ([a, b], rest)
    else none
  | _ => none

/-- Exactly `\d{4}` at the current position. -/
def take4Digits (cs : List Char) : Option (List Char × List Char) :=
  match cs with
  | a :: b :: c :: d :: rest =>
    if isDigitCh a && isDigitCh b && isDigitCh c && isDigitCh d then
      some ([a, b, c, d], rest)
    else none
  | _ => none

/-- Exactly `\d{2}` at the current position. -/
def take2Digits (cs : List Char) : Option (List Char × List Char) :=
  match cs with
  | a :: b :: rest =>
    if isDigitCh a && isDigitCh b then some ([a, b], rest) else none
  | _ => none

/-- One attempt of `(\d+)(?:st|nd|rd|th)\s+(\w+)\s+(\d{4})` (the `.gg`
ordinal-date rule), returning the day, month-name and year captures.  Each
quantifier's maximal run is its only viable extent, because the atom that
follows it never matches a character of its class, so backtracking is not
needed. -/
def ggAt (cs : List Char) : Option (List Char × List Char × List Char) :=
  let day := cs.takeWhile isDigitCh
  if day.isEmpty then none
  else
    match stripOrdinal (cs.drop day.length) with
    | none => none
    | some (_, r1) =>
      let ws1 := r1.takeWhile isJsWs
      if ws1.isEmpty then none
      else
        let r2 := r1.drop ws1.length
        let mon := r2.takeWhile isWordCh
        if mon.isEmpty then none
        else
          let r3 := r2.drop mon.length
          let ws2 := r3.takeWhile isJsWs
          if ws2.isEmpty then none
          else
            match take4Digits (r3.drop ws2.length) with
            | some (year, _) => some (day, mon, year)
            | none => none

/-- One attempt of `(\d+)(?:st|nd|rd|th)\s+(\w+)\s+each year` (the
recurring-date rule), returning the day and month-name captures. -/
def recAt (cs : List Char) : Option (List Char × List Char) :=
  let day := cs.takeWhile isDigitCh
  if day.isEmpty then none
  else
    match stripOrdinal (cs.drop day.length) with
    | none => none
    | some (_, r1) =>
      let ws1 := r1.takeWhile isJsWs
      if ws1.isEmpty then none
      else
        let r2 := r1.drop ws1.length
        let mon := r2.takeWhile isWordCh
        if mon.isEmpty then none
        else
          let r3 := r2.drop mon.length
          let ws2 := r3.takeWhile isJsWs
          if ws2.isEmpty then none
          else
            match stripLitCI "each year".data (r3.drop ws2.length) with
            | some _ => some (day, mon)
            | none => none

/-- The capture `(\d+(?:st|nd|rd|th) \w+ \d{4})` of the `Registered on`
creation-date pattern, with its literal single spaces; returns the captured
characters exactly as they appear in the text. -/
def ordDateCap (cs : List Char) : Option (List Char) :=
  let day := cs.takeWhile isDigitCh
  if day.isEmpty then none
  else
    match stripOrdinal (cs.drop day.length) with
    | none => none
    | some (ord, r1) =>
      match r1 with
      | ' ' :: r2 =>
        let mon := r2.takeWhile isWordCh
        if mon.isEmpty then none
        else
          match r2.drop mon.length with
          | ' ' :: r3 =>
            match take4Digits r3 with
            | some (year, _) => some (day ++ ord ++ ' ' :: (mon ++ ' ' :: year))
            | none => none
          | _ => none
      | _ => none

/-- The capture `(\d+(?:st|nd|rd|th) \w+ each year)` of the
`Registry fee due on` expiry pattern. -/
def ordEachYearCap (cs : List Char) : Option (List Char) :=
  let day := cs.takeWhile isDigitCh
  if day.isEmpty then none
  else
    match stripOrdinal (cs.drop day.length) with
    | none => none
    | some (ord, r1) =>
      match r1 with
      | ' ' :: r2 =>
        let mon := r2.takeWhile isWordCh
        if mon.isEmpty then none
        else
          match r2.drop mon.length with
          | ' ' :: r3 =>
            match stripLitCI "each year".data r3 with
            | some (each, _) => some (day ++ ord ++ ' ' :: (mon ++ ' ' :: each))
            | none => none
          | _ => none
      | _ => none

/-- The anchored `.jp` date shape `^(\d{4})\/(\d{2})\/(\d{2})$`. -/
def jpExact (cs : List Char) : Option (List Char × List Char × List Char) :=
  match take4Digits cs with
  | some (year, r1) =>
    match r1 with
    | '/' :: r2 =>
      match take2Digits r2 with
      | some (mon, r3) =>
        match r3 with
        | '/' :: r4 =>
          match take2Digits r4 with
          | some (day, r5) => if r5 = [] then some (year, mon, day) else none
          | none => none
        | _ => none
      | none => none
    | _ => none
  | none => none

/-- The anchored `.kr` date shape `^(\d{4})\.\s*(\d{2})\.\s*(\d{2})\.?$`. -/
def krExact (cs : List Char) : Option (List Char × List Char × List Char) :=
  match take4Digits cs with
  | some (year, r1) =>
    match r1 with
    | '.' :: r2 =>
      match take2Digits (r2.dropWhile isJsWs) with
      | some (mon, r3) =>
        match r3 with
        | '.' :: r4 =>
          match take2Digits (r4.dropWhile isJsWs) with
          | some (day, r5) =>
            if r5 = [] || r5 = ['.'] then some (year, mon, day) else none
          | none => none
        | _ => none
      | none => none
    | _ => none
  | none => none

/-- The month-name table of `normalizeDateString`, keyed by the lowercased
captured month name. -/
def monthMap (m : List Char) : Option String :=
  if m = "january".data then some "01"
  else if m = "february".data then some "02"
  else if m = "march".data then some "03"
  else if m = "april".data then some "04"
  else if m = "may".data then some "05"
  else if m = "june".data then some "06"
  else if m = "july".data then some "07"
  else if m = "august".data then some "08"
  else if m = "september".data then some "09"
  else if m = "october".data then some "10"
  else if m = "november".data then some "11"
  else if m = "december".data then some "12"
  else none

/-- The template `year-month-dayT00:00:00Z` shared by the four date rules. -/
def isoFmt (year month day : List Char) : String :=
  String.mk (year ++ '-' :: (month ++ '-' :: (day ++ "T00:00:00Z".data)))

/-- Rule 1 of `normalizeDateString`: `"30th April 2003"` (`.gg`/`.je`).  As
in the source, a matching shape whose month name is not in the table yields
nothing here and control falls through to the next rule. -/
def ggRule (cs : List Char) : Option String :=
  match searchPos ggAt cs with
  | some (day, mon, year) =>
    match monthMap (toLowerList mon) with
    | some mm => some (isoFmt year mm.data (padStart2 day))
    | none => none
  | none => none

/-- Rule 2: `"30th April each year"`, resolved to the calendar year after
`currentYear` (the source reads `new Date().getFullYear()`). -/
def recRule (currentYear : Nat) (cs : List Char) : Option String :=
  match searchPos recAt cs with
  | some (day, mon) =>
    match monthMap (toLowerList mon) with
    | some mm => some (isoFmt (natRepr (currentYear + 1)) mm.data (padStart2 day))
    | none => none
  | none => none

/-- Rule 3: the anchored `.jp` shape `2005/05/30`. -/
def jpRule (cs : List Char) : Option String :=
  match jpExact cs with
  | some (year, mon, day) => some (isoFmt year mon day)
  | none => none

/-- Rule 4: the anchored `.kr` shape `2007. 03. 02.`. -/
def krRule (cs : List Char) : Option String :=
  match krExact cs with
  | some (year, mon, day) => some (isoFmt year mon day)
  | none => none

/-- The date normalizer `normalizeDateString`.  A falsy argument — for a
string input, exactly the empty string — returns null (`none`); otherwise
the four rules are tried in order, first match wins, and an input matching
no rule is returned unchanged. -/
def normalizeDateString (currentYear : Nat) (dateStr : String) : Option String :=
  if dateStr = "" then none
  else
    match ggRule dateStr.data with
    | some r => some r
    | none =>
      match recRule currentYear dateStr.data with
      | some r => some r
      | none =>
        match jpRule dateStr.data with
        | some r => some r
        | none =>
          match krRule dateStr.data with
          | some r => some r
          | none => some dateStr


/-- The lazy capture `([\s\S]*?)` of the block patterns: the shortest run
of arbitrary characters after which the lookahead holds. -/
def lazyCapture (la : List Char → Bool) : List Char → Option (List Char)
  | [] => if la [] then some [] else none
  | c :: cs =>
    if la (c :: cs) then some []
    else
      match lazyCapture la cs with
      | some cap => some (c :: cap)
      | none => none

/-- The tail `\s*([\s\S]*?)(?=...)` of a block pattern, with regex
backtracking: the greedy `\s*` tries longer whitespace prefixes first; `j`
is the whitespace length tried next. -/
def wsLazyDown (la : List Char → Bool) (rest : List Char) : Nat → Option (List Char)
  | 0 => lazyCapture la rest
  | j + 1 =>
    match lazyCapture la (rest.drop (j + 1)) with
    | some cap => some cap
    | none => wsLazyDown la rest j

/-- One attempt of a block pattern `<label>\s*([\s\S]*?)(?=...)` at the
current position; returns the capture. -/
def blockAt (label : List Char) (la : List Char → Bool) (cs : List Char) :
    Option (List Char) :=
  match stripLitCI label cs with
  | none => none
  | some (_, rest) => wsLazyDown la rest ((rest.takeWhile isJsWs).length)

/-- A whitespace prefix of length `j` followed by a literal newline, then
the lazy capture: one backtracking step of `\s*\n([\s\S]*?)(?=...)`. -/
def wsNlTryAt (la : List Char → Bool) (rest : List Char) (j : Nat) : Option (List Char) :=
  match rest.drop j with
  | '\n' :: tail => lazyCapture la tail
  | _ => none

/-- The tail `\s*\n([\s\S]*?)(?=...)` of the `.it` nameserver block
pattern: the greedy `\s*` backtracks until the character that follows it is
a literal newline; longer prefixes are tried first. -/
def wsNlLazyDown (la : List Char → Bool) (rest : List Char) : Nat → Option (List Char)
  | 0 => wsNlTryAt la rest 0
  | j + 1 =>
    match wsNlTryAt la rest (j + 1) with
    | some cap => some cap
    | none => wsNlLazyDown la rest j

/-- One attempt of the block pattern `<label>\s*\n([\s\S]*?)(?=...)`. -/
def blockNlAt (label : List Char) (la : List Char → Bool) (cs : List Char) :
    Option (List Char) :=
  match stripLitCI label cs with
  | none => none
  | some (_, rest) => wsNlLazyDown la rest ((rest.takeWhile isJsWs).length)

/-- The lookahead `(?=\n\n|WHOIS lookup)` of the `Name servers:` block
pattern (case-insensitive under the `i` flag). -/
def laNsBlock (cs : List Char) : Bool :=
  match cs with
  | '\n' :: '\n' :: _ => true
  | _ => startsWithCI "WHOIS lookup".data cs

/-- The lookahead `(?=\n\n|\n[A-Z])` of the `Nameservers` block pattern;
under the `i` flag the class `[A-Z]` also matches the lowercase letters. -/
def laItBlock (cs : List Char) : Bool :=
  match cs with
  | '\n' :: c :: _ => c = '\n' || ('A' ≤ c && c ≤ 'Z') || ('a' ≤ c && c ≤ 'z')
  | _ => false

/-- The lookahead `(?=\n\n|Registrant:)` of the `Domain Status:` block
pattern. -/
def laStatusBlock (cs : List Char) : Bool :=
  match cs with
  | '\n' :: '\n' :: _ => true
  | _ => startsWithCI "Registrant:".data cs

/-- The method `String.prototype.replace` with a literal case-insensitive
pattern and an empty replacement: remove the leftmost occurrence, if any. -/
def removeFirstCI (pat : List Char) : List Char → List Char
  | [] =>
    (match stripLitCI pat [] with
     | some (_, rest) => rest
     | none => [])
  | c :: cs =>
    match stripLitCI pat (c :: cs) with
    | some (_, rest) => rest
    | none => c :: removeFirstCI pat cs

/-- The gap `parseField`'s colon pattern allows between the label and the
colon: the class `[\.\s]`, for dotted-filler labels like
`domain...............:`. -/
def dotFillGap (c : Char) : Bool := c = '.' || isJsWs c

/-- The empty gap of `parseMultipleFields`'s pattern `<field>:\s*(.+)`. -/
def noGap (_ : Char) : Bool := false

/-- One label's attempt inside `parseField`: the colon form first, then the
bracketed form; the first capture is trimmed. -/
def parseFieldOne (txt : List Char) (f : String) : Option String :=
  match searchPos (colonFormAt dotFillGap f.data) txt with
  | some (_, cap, _) => some (String.mk (listTrim cap))
  | none =>
    match searchPos (bracketFormAt f.data) txt with
    | some (_, cap, _) => some (String.mk (listTrim cap))
    | none => none

/-- The synonym loop of `parseField`. -/
def parseFieldList (txt : List Char) : List String → Option String
  | [] => none
  | f :: fs =>
    match parseFieldOne txt f with
    | some v => some v
    | none => parseFieldList txt fs

/-- The generic single-value extractor `parseField`. -/
def parseField (whoisText : String) (field : String)
    (alternativeFields : List String) : Option String :=
  parseFieldList whoisText.data (field :: alternativeFields)

/-- The expression `match.split(':')[1].trim()` applied to one match of
`parseMultipleFields`; `none` models the TypeError that a colonless match
would throw. -/
def splitColonSecond (m : List Char) : Option String :=
  match (jsSplitChar ':' m)[1]? with
  | some v => some (String.mk (listTrim v))
  | none => none

/-- The generic multi-value extractor `parseMultipleFields`: all matches of
`<field>:\s*(.+)` (global, case-insensitive), each mapped to the text
between its first and second colon, trimmed.  When the text has no match the
source maps over no elements and yields `[]`.  The outer `none` models a
thrown exception. -/
def parseMultipleFields (whoisText : String) (field : String) :
    Option (List String) :=
  mapOption (fun mc => splitColonSecond mc.1)
    (matchAll (colonFormAt noGap field.data) whoisText.data)

/-- The per-line processing of the two multi-line nameserver blocks: split
on newlines, trim each line, drop empty lines and lines starting with
`WHOIS` (case-sensitively), keep each line's first whitespace-delimited
token. -/
def nsBlockLines (inner : List Char) : List String :=
  (((jsSplitChar '\n' inner).map listTrim).filter
      (fun l => !l.isEmpty && !(List.isPrefixOf "WHOIS".data l))).map
    (fun l => String.mk (firstWsToken l))

/-- The nameserver colon-form extraction of one match: the text between the
first and second colon, trimmed, first whitespace-delimited token, one
trailing dot stripped.  `none` models the TypeError on a colonless match. -/
def nsColonEntry (m : List Char) : Option String :=
  match (jsSplitChar ':' m)[1]? with
  | some v => some (String.mk (stripTrailingDot (firstWsToken (listTrim v))))
  | none => none

/-- The bracketed `[Name Server]` extraction of one match: the label removed
by `replace`, trimmed, first whitespace-delimited token. -/
def nsBracketEntry (m : List Char) : String :=
  String.mk (firstWsToken (listTrim (removeFirstCI "[Name Server]".data m)))

/-- The colon-form synonym priority list of `parseNameservers`. -/
def nsColonFields : List String :=
  ["nserver", "Nserver", "Name Server", "nameservers", "nameserver", "Host Name"]

/-- The colon-form synonym loop of `parseNameservers`, with the bracketed
`.jp` form and the final null as its continuation once the synonyms are
exhausted. -/
def nsColonLoop (txt : List Char) : List String → Option (Option (List String))
  | [] =>
    let jpMatches := matchAll (bracketFormAt "Name Server".data) txt
    if jpMatches.length > 0 then
      some (some (jpMatches.map (fun mc => nsBracketEntry mc.1)))
    else some none
  | f :: fs =>
    let ms := matchAll (colonFormAt isJsWs f.data) txt
    if ms.length > 0 then
      match mapOption (fun mc => nsColonEntry mc.1) ms with
      | some l => some (some l)
      | none => none
    else nsColonLoop txt fs

/-- The `.it`-style second multi-line attempt of `parseNameservers`
(`Nameservers\s*\n([\s\S]*?)(?=\n\n|\n[A-Z])`), falling through to the
colon forms. -/
def parseNameserversFromIt (txt : List Char) : Option (Option (List String)) :=
  match searchPos (blockNlAt "Nameservers".data laItBlock) txt with
  | some inner =>
    let servers := nsBlockLines inner
    if servers.length > 0 then some (some servers)
    else nsColonLoop txt nsColonFields
  | none => nsColonLoop txt nsColonFields

/-- The nameserver extractor `parseNameservers`.  The outer `Option` models
exceptions; the inner `Option` is the source's null result. -/
def parseNameservers (whoisText : String) : Option (Option (List String)) :=
  match searchPos (blockAt "Name servers:".data laNsBlock) whoisText.data with
  | some inner =>
    let servers := nsBlockLines inner
    if servers.length > 0 then some (some servers)
    else parseNameserversFromIt whoisText.data
  | none => parseNameserversFromIt whoisText.data

/-- The single-line fallback of `parseStatus`.  In the source the three
`parseMultipleFields` results are chained with `||`; a JavaScript array is
truthy even when it is empty, so the chain always yields its first operand
and the `Status` and `state` synonyms are never evaluated. -/
def parseStatusSingleLine (whoisText : String) : Option (Option (List String)) :=
  match parseMultipleFields whoisText "Domain Status" with
  | none => none
  | some singleLineMatch =>
    if singleLineMatch.length > 0 then some (some singleLineMatch)
    else some none

/-- The status extractor `parseStatus`: the `Domain Status:` block first,
then the single-line fallback. -/
def parseStatus (whoisText : String) : Option (Option (List String)) :=
  match searchPos (blockAt "Domain Status:".data laStatusBlock) whoisText.data with
  | some inner =>
    let statuses := ((jsSplitChar '\n' inner).map listTrim).filter (fun l => !l.isEmpty)
    if statuses.length > 0 then some (some (statuses.map String.mk))
    else parseStatusSingleLine whoisText
  | none => parseStatusSingleLine whoisText

/-- Adapter: the capture of a colon-form pattern attempt. -/
def colonCap (gap : Char → Bool) (field : String) (cs : List Char) :
    Option (List Char) :=
  match colonFormAt gap field.data cs with
  | some (_, cap, _) => some cap
  | none => none

/-- Adapter: the capture of a bracketed-form pattern attempt. -/
def bracketCap (field : String) (cs : List Char) : Option (List Char) :=
  match bracketFormAt field.data cs with
  | some (_, cap, _) => some cap
  | none => none

/-- One attempt of `Registered on (\d+(?:st|nd|rd|th) \w+ \d{4})`. -/
def litOrdDateAt (lit : List Char) (cs : List Char) : Option (List Char) :=
  match stripLitCI lit cs with
  | none => none
  | some (_, rest) => ordDateCap rest

/-- One attempt of `Registry fee due on (\d+(?:st|nd|rd|th) \w+ each year)`. -/
def litOrdEachYearAt (lit : List Char) (cs : List Char) : Option (List Char) :=
  match stripLitCI lit cs with
  | none => none
  | some (_, rest) => ordEachYearCap rest

/-- First pattern of an ordered list that matches anywhere in the text; the
winning pattern's capture is returned. -/
def firstCapture (txt : List Char) :
    List (List Char → Option (List Char)) → Option (List Char)
  | [] => none
  | p :: ps =>
    match searchPos p txt with
    | some cap => some cap
    | none => firstCapture txt ps

/-- The raw captured text of `parseCreationDate`'s ordered pattern list,
trimmed; the source passes this to `normalizeDateString`. -/
def creationRaw (txt : List Char) : Option String :=
  (firstCapture txt
    [litOrdDateAt "Registered on ".data,
     colonCap noGap "created",
     colonCap noGap "Created",
     colonCap noGap "Creation Date",
     colonCap noGap "Created On",
     colonCap isJsWs "Registered Date",
     bracketCap "登録年月日"]).map (fun cap => String.mk (listTrim cap))

/-- The creation-date extractor `parseCreationDate`. -/
def parseCreationDate (whoisText : String) (currentYear : Nat) : Option String :=
  match creationRaw whoisText.data with
  | some rawDate => normalizeDateString currentYear rawDate
  | none => none

/-- The raw captured text of `parseExpiryDate`'s ordered pattern list,
trimmed. -/
def expiryRaw (txt : List Char) : Option String :=
  (firstCapture txt
    [litOrdEachYearAt "Registry fee due on ".data,
     colonCap noGap "paid-till",
     colonCap noGap "Expire Date",
     colonCap noGap "Registry Expiry Date",
     colonCap isJsWs "Expiration Date",
     colonCap noGap "renewal date",
     colonCap noGap "Expires On",
     bracketCap "有効期限"]).map (fun cap => String.mk (listTrim cap))

/-- The expiration-date extractor `parseExpiryDate`. -/
def parseExpiryDate (whoisText : String) (currentYear : Nat) : Option String :=
  match expiryRaw whoisText.data with
  | some rawDate => normalizeDateString currentYear rawDate
  | none => none

/-- JavaScript `a || b` on optional strings: null and the empty string are
falsy (`parsedDomain || domainName`). -/
def jsOrStr (a b : Option String) : Option String :=
  match a with
  | some s => if s = "" then b else some s
  | none => b

/-- The record returned by `parseWhoisData`; `none` in a field is the
source's null. -/
structure DomainRecord where
  domainName : Option String
  registrar : Option String
  creationDate : Option String
  expirationDate : Option String
  nameservers : Option (List String)
  registrant : Option String
  status : Option (List String)
  dnssec : Option String
  lastModified : Option String
deriving DecidableEq

/-- The parsing engine `parseWhoisData`.  `currentYear` makes the date
normalizer's wall-clock read explicit; the outer `Option` models a thrown
exception (the field expressions are evaluated in the object-literal order
of the source, so an exception in `parseNameservers` or `parseStatus` aborts
the whole record). -/
def parseWhoisData (whoisText : String) (domainName : Option String)
    (currentYear : Nat) : Option DomainRecord :=
  let parsedDomain := parseField whoisText "Domain" ["Domain Name", "domain name", "domain"]
  let registrar := parseField whoisText "Registrar" ["REGISTRAR", "registrar"]
  let creationDate := parseCreationDate whoisText currentYear
  let expirationDate := parseExpiryDate whoisText currentYear
  match parseNameservers whoisText with
  | none => none
  | some nameservers =>
    let registrant := parseField whoisText "Registrant" ["registrant name", "org", "Organization"]
    match parseStatus whoisText with
    | none => none
    | some status =>
      some
        { domainName := jsOrStr parsedDomain domainName
          registrar := registrar
          creationDate := creationDate
          expirationDate := expirationDate
          nameservers := nameservers
          registrant := registrant
          status := status
          dnssec := parseField whoisText "DNSSEC" ["Signed", "dnssec"]
          lastModified := parseField whoisText "Last Modified"
            ["last modified", "Last Update", "Changed", "changed"] }


/-- Whether the recurring-date matcher finds nothing in an optional raw
date text; records whose date fields satisfy this never reach the one rule
that reads the current year. -/
def noRecurring (o : Option String) : Bool :=
  match o with
  | none => true
  | some s => (searchPos recAt s.data).isNone

/-! ### Character-class and string lemmas -/

theorem char_le_toNat (a b : Char) : (a ≤ b) = (a.val.toNat ≤ b.val.toNat) := rfl

theorem char_eq_iff_toNat (a b : Char) : a = b ↔ a.val.toNat = b.val.toNat := by
  constructor
  · intro h; rw [h]
  · intro h; exact Char.ext (UInt32.ext h)

/-- A digit character is not JavaScript whitespace. -/
theorem digit_not_ws {c : Char} (h : isDigitCh c = true) : isJsWs c = false := by
  simp only [isDigitCh, Bool.and_eq_true, decide_eq_true_eq, char_le_toNat,
    show (' ' : Char).val.toNat = 32 from rfl,
    show ('\t' : Char).val.toNat = 9 from rfl,
    show ('\n' : Char).val.toNat = 10 from rfl,
    show ('\r' : Char).val.toNat = 13 from rfl,
    show ('\u000B' : Char).val.toNat = 11 from rfl,
    show ('\u000C' : Char).val.toNat = 12 from rfl,
    show (' ' : Char).val.toNat = 160 from rfl,
    show (' ' : Char).val.toNat = 5760 from rfl,
    show (' ' : Char).val.toNat = 8192 from rfl,
    show (' ' : Char).val.toNat = 8202 from rfl,
    show (' ' : Char).val.toNat = 8232 from rfl,
    show (' ' : Char).val.toNat = 8233 from rfl,
    show (' ' : Char).val.toNat = 8239 from rfl,
    show (' ' : Char).val.toNat = 8287 from rfl,
    show ('　' : Char).val.toNat = 12288 from rfl,
    show ('﻿' : Char).val.toNat = 65279 from rfl,
    show ('0' : Char).val.toNat = 48 from rfl,
    show ('9' : Char).val.toNat = 57 from rfl] at h
  simp only [isJsWs, Bool.or_eq_false_iff, decide_eq_false_iff_not, char_eq_iff_toNat,
    Bool.and_eq_false_iff, char_le_toNat,
    show (' ' : Char).val.toNat = 32 from rfl,
    show ('\t' : Char).val.toNat = 9 from rfl,
    show ('\n' : Char).val.toNat = 10 from rfl,
    show ('\r' : Char).val.toNat = 13 from rfl,
    show ('\u000B' : Char).val.toNat = 11 from rfl,
    show ('\u000C' : Char).val.toNat = 12 from rfl,
    show (' ' : Char).val.toNat = 160 from rfl,
    show (' ' : Char).val.toNat = 5760 from rfl,
    show (' ' : Char).val.toNat = 8192 from rfl,
    show (' ' : Char).val.toNat = 8202 from rfl,
    show (' ' : Char).val.toNat = 8232 from rfl,
    show (' ' : Char).val.toNat = 8233 from rfl,
    show (' ' : Char).val.toNat = 8239 from rfl,
    show (' ' : Char).val.toNat = 8287 from rfl,
    show ('　' : Char).val.toNat = 12288 from rfl,
    show ('﻿' : Char).val.toNat = 65279 from rfl,
    show ('0' : Char).val.toNat = 48 from rfl,
    show ('9' : Char).val.toNat = 57 from rfl]
  omega

/-- The letter Z is not JavaScript whitespace. -/
theorem z_not_ws : isJsWs 'Z' = false := by decide

theorem dropWhile_head_not {p : Char → Bool} :
    ∀ {l : List Char} {c : Char} {t : List Char},
      l.dropWhile p = c :: t → p c = false := by
  intro l
  induction l with
  | nil => intro c t h; simp at h
  | cons a l ih =>
    intro c t h
    by_cases hp : p a = true
    · rw [List.dropWhile_cons, if_pos hp] at h
      exact ih h
    · rw [List.dropWhile_cons, if_neg hp] at h
      cases h
      exact Bool.eq_false_iff.mpr hp

theorem dropWhile_of_head_not {p : Char → Bool} {l : List Char} {c : Char} {t : List Char}
    (hl : l = c :: t) (hc : p c = false) : l.dropWhile p = l := by
  subst hl
  rw [List.dropWhile_cons, if_neg (by simp [hc])]

theorem dropWhile_getLast?_eq {p : Char → Bool} :
    ∀ {l : List Char}, l.dropWhile p ≠ [] → (l.dropWhile p).getLast? = l.getLast? := by
  intro l
  induction l with
  | nil => intro h; simp at h
  | cons a l ih =>
    intro h
    by_cases hp : p a = true
    · rw [List.dropWhile_cons, if_pos hp] at h ⊢
      rw [ih h]
      have hl : l ≠ [] := by
        intro he; rw [he] at h; simp at h
      cases l with
      | nil => exact absurd rfl hl
      | cons b m => simp [List.getLast?]
    · rw [List.dropWhile_cons, if_neg hp]

/-- A nonempty trimmed list starts and ends with a non-whitespace
character. -/
theorem listTrim_ends {cs : List Char} {c : Char} {t : List Char}
    (h : listTrim cs = c :: t) :
    (∃ a u, listTrim cs = a :: u ∧ isJsWs a = false) ∧
      (∃ b, (listTrim cs).getLast? = some b ∧ isJsWs b = false) := by
  unfold listTrim at h ⊢
  set d1 := cs.dropWhile isJsWs with hd1
  set r := d1.reverse.dropWhile isJsWs with hr
  have hrne : r ≠ [] := by
    intro he
    rw [he] at h; simp at h
  constructor
  · refine ⟨c, t, h, ?_⟩
    have h1 : r.reverse.head? = some c := by rw [h]; rfl
    rw [List.head?_reverse] at h1
    have h2 : r.getLast? = d1.reverse.getLast? := dropWhile_getLast?_eq hrne
    rw [h2, List.getLast?_reverse] at h1
    have hd1ne : d1 ≠ [] := by
      intro he
      apply hrne
      rw [hr, he]
      rfl
    obtain ⟨x, xs, hx⟩ := List.exists_cons_of_ne_nil hd1ne
    have hxc : x = c := by rw [hx] at h1; simpa using h1
    subst hxc
    exact dropWhile_head_not (hd1.symm.trans hx)
  · obtain ⟨x, xs, hx⟩ := List.exists_cons_of_ne_nil hrne
    refine ⟨x, ?_, dropWhile_head_not (hr ▸ hx)⟩
    rw [hx, List.getLast?_reverse]
    rfl

/-- A list whose first and last characters are not whitespace is fixed by
trimming. -/
theorem listTrim_fix {cs : List Char} {a b : Char} (h1 : cs.head? = some a)
    (ha : isJsWs a = false) (h2 : cs.getLast? = some b) (hb : isJsWs b = false) :
    listTrim cs = cs := by
  cases cs with
  | nil => simp at h1
  | cons c t =>
    have hca : c = a := by simpa using h1
    subst hca
    unfold listTrim
    rw [dropWhile_of_head_not rfl ha]
    have hrev : (c :: t).reverse.dropWhile isJsWs = (c :: t).reverse := by
      obtain ⟨x, xs, hx⟩ := List.exists_cons_of_ne_nil
        (l := (c :: t).reverse) (by simp)
      have hxb : x = b := by
        have hh := List.head?_reverse (c :: t)
        rw [hx, h2] at hh
        simpa using hh
      exact dropWhile_of_head_not hx (hxb ▸ hb)
    rw [hrev, List.reverse_reverse]

/-- Trimming is idempotent. -/
theorem listTrim_idem (cs : List Char) : listTrim (listTrim cs) = listTrim cs := by
  cases h : listTrim cs with
  | nil => rfl
  | cons c t =>
    obtain ⟨⟨a, u, ha1, ha2⟩, ⟨b, hb1, hb2⟩⟩ := listTrim_ends h
    have hh : (listTrim cs).head? = some a := by rw [ha1]; rfl
    rw [h] at hh hb1
    exact listTrim_fix hh ha2 hb1 hb2

/-! ### Decimal representation and date-shape lemmas -/

theorem digitChar_isDigit {n : Nat} (h : n < 10) :
    isDigitCh (Char.ofNat (48 + n)) = true := by
  interval_cases n <;> decide

theorem natReprAux_digits :
    ∀ (fuel n : Nat), ∀ c ∈ natReprAux fuel n, isDigitCh c = true := by
  intro fuel
  induction fuel with
  | zero => intro n c hc; simp [natReprAux] at hc
  | succ fuel ih =>
    intro n c hc
    unfold natReprAux at hc
    by_cases hn : n < 10
    · rw [if_pos hn] at hc
      simp at hc
      rw [hc]
      exact digitChar_isDigit hn
    · rw [if_neg hn] at hc
      rcases List.mem_append.mp hc with h1 | h2
      · exact ih _ c h1
      · simp at h2
        rw [h2]
        exact digitChar_isDigit (Nat.mod_lt _ (by omega))

theorem natReprAux_ne_nil (fuel n : Nat) (h : 0 < fuel) :
    natReprAux fuel n ≠ [] := by
  cases fuel with
  | zero => omega
  | succ fuel =>
    unfold natReprAux
    by_cases hn : n < 10
    · rw [if_pos hn]; simp
    · rw [if_neg hn]; simp

theorem natRepr_head_digit (n : Nat) :
    ∃ a t, natRepr n = a :: t ∧ isDigitCh a = true := by
  obtain ⟨a, t, h⟩ := List.exists_cons_of_ne_nil (natReprAux_ne_nil (n + 1) n (by omega))
  exact ⟨a, t, h, natReprAux_digits (n + 1) n a (h ▸ List.mem_cons_self a t)⟩

theorem take4Digits_shape {cs y r : List Char} (h : take4Digits cs = some (y, r)) :
    ∃ a b c d, y = [a, b, c, d] ∧ isDigitCh a = true ∧ isDigitCh b = true ∧
      isDigitCh c = true ∧ isDigitCh d = true := by
  rcases cs with _ | ⟨a, _ | ⟨b, _ | ⟨c, _ | ⟨d, rest⟩⟩⟩⟩ <;>
    simp only [take4Digits] at h
  · exact absurd h (by simp)
  · exact absurd h (by simp)
  · exact absurd h (by simp)
  · exact absurd h (by simp)
  · split at h
    · rename_i hd
      simp only [Option.some_inj, Prod.mk.injEq] at h
      refine ⟨a, b, c, d, h.1.symm, ?_⟩
      simp only [Bool.and_eq_true] at hd
      exact ⟨hd.1.1.1, hd.1.1.2, hd.1.2, hd.2⟩
    · exact absurd h (by simp)

theorem searchPos_exists {α : Type} {att : List Char → Option α} :
    ∀ {cs : List Char} {r : α}, searchPos att cs = some r → ∃ cs', att cs' = some r := by
  intro cs
  induction cs with
  | nil => intro r h; exact ⟨[], h⟩
  | cons c cs ih =>
    intro r h
    unfold searchPos at h
    cases hat : att (c :: cs) with
    | some v => rw [hat] at h; exact ⟨c :: cs, hat.trans h⟩
    | none => rw [hat] at h; exact ih h

theorem isoFmt_data (year month day : List Char) :
    (isoFmt year month day).data =
      year ++ '-' :: (month ++ '-' :: (day ++ "T00:00:00Z".data)) := rfl

/-- A formatted date whose year starts with a digit is trimmed and
nonempty. -/
theorem isoFmt_good {year month day : List Char} {a : Char} {t : List Char}
    (hy : year = a :: t) (ha : isDigitCh a = true) :
    listTrim (isoFmt year month day).data = (isoFmt year month day).data ∧
      isoFmt year month day ≠ "" := by
  have hz : ("T00:00:00Z".data : List Char).getLast? = some 'Z' := by decide
  have hlast : (isoFmt year month day).data.getLast? = some 'Z' := by
    rw [isoFmt_data]
    rw [List.getLast?_append_of_ne_nil _ (by simp)]
    have h2 : (month ++ '-' :: (day ++ "T00:00:00Z".data)) ≠ [] := by simp
    rw [show ('-' :: (month ++ '-' :: (day ++ "T00:00:00Z".data))) =
      ['-'] ++ (month ++ '-' :: (day ++ "T00:00:00Z".data)) from rfl]
    rw [List.getLast?_append_of_ne_nil _ h2]
    rw [List.getLast?_append_of_ne_nil _ (by simp)]
    rw [show ('-' :: (day ++ "T00:00:00Z".data)) =
      ['-'] ++ (day ++ "T00:00:00Z".data) from rfl]
    rw [List.getLast?_append_of_ne_nil _ (by simp)]
    rw [List.getLast?_append_of_ne_nil _ (by simp [String.data])]
    exact hz
  have hhead : (isoFmt year month day).data.head? = some a := by
    rw [isoFmt_data, hy]
    rfl
  constructor
  · exact listTrim_fix hhead (digit_not_ws ha) hlast z_not_ws
  · intro he
    have : (isoFmt year month day).data = [] := by rw [he]
    rw [this] at hhead
    simp at hhead

/-- A successful ggAt attempt captures a four-digit year. -/
theorem ggAt_year {cs day mon year : List Char}
    (h : ggAt cs = some (day, mon, year)) :
    ∃ a b c d, year = [a, b, c, d] ∧ isDigitCh a = true ∧ isDigitCh b = true ∧
      isDigitCh c = true ∧ isDigitCh d = true := by
  unfold ggAt at h
  dsimp only at h
  split at h
  · exact absurd h (by simp)
  · split at h
    · exact absurd h (by simp)
    · split at h
      · exact absurd h (by simp)
      · split at h
        · exact absurd h (by simp)
        · split at h
          · exact absurd h (by simp)
          · split at h
            · rename_i y rest h4
              simp only [Option.some_inj, Prod.mk.injEq] at h
              obtain ⟨a, b, c, d, hy, hd⟩ := take4Digits_shape h4
              exact ⟨a, b, c, d, h.2.2 ▸ hy, hd⟩
            · exact absurd h (by simp)

/-- The first rule's output is trimmed and nonempty. -/
theorem ggRule_good {cs : List Char} {r : String} (h : ggRule cs = some r) :
    listTrim r.data = r.data ∧ r ≠ "" := by
  unfold ggRule at h
  cases hs : searchPos ggAt cs with
  | none => rw [hs] at h; exact absurd h (by simp)
  | some v =>
    obtain ⟨day, mon, year⟩ := v
    rw [hs] at h
    dsimp only at h
    cases hm : monthMap (toLowerList mon) with
    | none => rw [hm] at h; exact absurd h (by simp)
    | some mm =>
      rw [hm] at h
      simp only [Option.some_inj] at h
      obtain ⟨cs', hat⟩ := searchPos_exists hs
      obtain ⟨a, b, c, d, hy, hda, _⟩ := ggAt_year hat
      rw [← h]
      exact isoFmt_good hy hda

/-- A successful jpExact attempt captures a four-digit year. -/
theorem jpExact_year {cs year mon day : List Char}
    (h : jpExact cs = some (year, mon, day)) :
    ∃ a b c d, year = [a, b, c, d] ∧ isDigitCh a = true ∧ isDigitCh b = true ∧
      isDigitCh c = true ∧ isDigitCh d = true := by
  unfold jpExact at h
  split at h
  · rename_i y r1 h4
    split at h
    · split at h
      · split at h
        · split at h
          · split at h
            · simp only [Option.some_inj, Prod.mk.injEq] at h
              obtain ⟨a, b, c, d, hy, hd⟩ := take4Digits_shape h4
              exact ⟨a, b, c, d, h.1 ▸ hy, hd⟩
            · exact absurd h (by simp)
          · exact absurd h (by simp)
        · exact absurd h (by simp)
      · exact absurd h (by simp)
    · exact absurd h (by simp)
  · exact absurd h (by simp)

/-- A successful krExact attempt captures a four-digit year. -/
theorem krExact_year {cs year mon day : List Char}
    (h : krExact cs = some (year, mon, day)) :
    ∃ a b c d, year = [a, b, c, d] ∧ isDigitCh a = true ∧ isDigitCh b = true ∧
      isDigitCh c = true ∧ isDigitCh d = true := by
  unfold krExact at h
  split at h
  · rename_i y r1 h4
    split at h
    · split at h
      · split at h
        · split at h
          · split at h
            · simp only [Option.some_inj, Prod.mk.injEq] at h
              obtain ⟨a, b, c, d, hy, hd⟩ := take4Digits_shape h4
              exact ⟨a, b, c, d, h.1 ▸ hy, hd⟩
            · exact absurd h (by simp)
          · exact absurd h (by simp)
        · exact absurd h (by simp)
      · exact absurd h (by simp)
    · exact absurd h (by simp)
  · exact absurd h (by simp)

/-- The recurring rule's output is trimmed and nonempty. -/
theorem recRule_good {y : Nat} {cs : List Char} {r : String}
    (h : recRule y cs = some r) : listTrim r.data = r.data ∧ r ≠ "" := by
  unfold recRule at h
  cases hs : searchPos recAt cs with
  | none => rw [hs] at h; exact absurd h (by simp)
  | some v =>
    obtain ⟨day, mon⟩ := v
    rw [hs] at h
    dsimp only at h
    cases hm : monthMap (toLowerList mon) with
    | none => rw [hm] at h; exact absurd h (by simp)
    | some mm =>
      rw [hm] at h
      simp only [Option.some_inj] at h
      obtain ⟨a, t, hy, hda⟩ := natRepr_head_digit (y + 1)
      rw [← h]
      exact isoFmt_good hy hda

/-- The jp rule's output is trimmed and nonempty. -/
theorem jpRule_good {cs : List Char} {r : String} (h : jpRule cs = some r) :
    listTrim r.data = r.data ∧ r ≠ "" := by
  unfold jpRule at h
  cases hs : jpExact cs with
  | none => rw [hs] at h; exact absurd h (by simp)
  | some v =>
    obtain ⟨year, mon, day⟩ := v
    rw [hs] at h
    simp only [Option.some_inj] at h
    obtain ⟨a, b, c, d, hy, hda, _⟩ := jpExact_year hs
    rw [← h]
    exact isoFmt_good hy hda

/-- The kr rule's output is trimmed and nonempty. -/
theorem krRule_good {cs : List Char} {r : String} (h : krRule cs = some r) :
    listTrim r.data = r.data ∧ r ≠ "" := by
  unfold krRule at h
  cases hs : krExact cs with
  | none => rw [hs] at h; exact absurd h (by simp)
  | some v =>
    obtain ⟨year, mon, day⟩ := v
    rw [hs] at h
    simp only [Option.some_inj] at h
    obtain ⟨a, b, c, d, hy, hda, _⟩ := krExact_year hs
    rw [← h]
    exact isoFmt_good hy hda

/-! ### Date-normalizer lemmas -/

/-- normalizeDateString yields a string on every nonempty input. -/
theorem normalizeDateString_isSome (y : Nat) (s : String) (h : s ≠ "") :
    (normalizeDateString y s).isSome = true := by
  unfold normalizeDateString
  rw [if_neg h]
  cases hg : ggRule s.data <;> cases hr : recRule y s.data <;>
    cases hj : jpRule s.data <;> cases hk : krRule s.data <;> simp

/-- normalizeDateString returns an input matching no rule unchanged. -/
theorem normalizeDateString_id (y : Nat) (s : String) (h : s ≠ "")
    (hg : ggRule s.data = none) (hr : recRule y s.data = none)
    (hj : jpRule s.data = none) (hk : krRule s.data = none) :
    normalizeDateString y s = some s := by
  unfold normalizeDateString
  rw [if_neg h, hg, hr, hj, hk]

/-- On a trimmed input, every string normalizeDateString returns is itself
trimmed and nonempty. -/
theorem normalizeDateString_good {y : Nat} {s t : String}
    (hs : listTrim s.data = s.data) (h : normalizeDateString y s = some t) :
    listTrim t.data = t.data ∧ t ≠ "" := by
  unfold normalizeDateString at h
  by_cases he : s = ""
  · rw [if_pos he] at h
    exact absurd h (by simp)
  · rw [if_neg he] at h
    cases hg : ggRule s.data with
    | some r =>
      rw [hg] at h
      simp only [Option.some_inj] at h
      exact h ▸ ggRule_good hg
    | none =>
      rw [hg] at h
      cases hr : recRule y s.data with
      | some r =>
        rw [hr] at h
        simp only [Option.some_inj] at h
        exact h ▸ recRule_good hr
      | none =>
        rw [hr] at h
        cases hj : jpRule s.data with
        | some r =>
          rw [hj] at h
          simp only [Option.some_inj] at h
          exact h ▸ jpRule_good hj
        | none =>
          rw [hj] at h
          cases hk : krRule s.data with
          | some r =>
            rw [hk] at h
            simp only [Option.some_inj] at h
            exact h ▸ krRule_good hk
          | none =>
            rw [hk] at h
            simp only [Option.some_inj] at h
            exact h ▸ ⟨hs, he⟩

/-- The recurring rule is normalizeDateString's only dependence on the
current year: when it does not fire, the result is year-independent. -/
theorem normalizeDateString_year_irrel {s : String} (y1 y2 : Nat)
    (h : searchPos recAt s.data = none) :
    normalizeDateString y1 s = normalizeDateString y2 s := by
  have hr : ∀ y, recRule y s.data = none := by
    intro y
    unfold recRule
    rw [h]
  unfold normalizeDateString
  rw [hr y1, hr y2]

/-! ### Split, match-collection and totality lemmas -/

theorem jsSplitChar_ne_nil (sep : Char) : ∀ (m : List Char), jsSplitChar sep m ≠ [] := by
  intro m
  induction m with
  | nil => simp [jsSplitChar]
  | cons c cs ih =>
    unfold jsSplitChar
    by_cases hc : c = sep
    · rw [if_pos hc]; simp
    · rw [if_neg hc]
      cases hsp : jsSplitChar sep cs with
      | nil => simp
      | cons t ts => simp

theorem jsSplitChar_length_ge_two {sep : Char} :
    ∀ {m : List Char}, sep ∈ m → 2 ≤ (jsSplitChar sep m).length := by
  intro m
  induction m with
  | nil => intro h; simp at h
  | cons c cs ih =>
    intro h
    unfold jsSplitChar
    by_cases hc : c = sep
    · rw [if_pos hc]
      have hne := jsSplitChar_ne_nil sep cs
      cases hsp : jsSplitChar sep cs with
      | nil => exact absurd hsp hne
      | cons t ts => simp
    · rw [if_neg hc]
      have hmem : sep ∈ cs := by
        rcases List.mem_cons.mp h with h1 | h2
        · exact absurd h1.symm hc
        · exact h2
      have hlen := ih hmem
      cases hsp : jsSplitChar sep cs with
      | nil => rw [hsp] at hlen; simp at hlen
      | cons t ts =>
        rw [hsp] at hlen
        simp at hlen ⊢
        omega

/-- Splitting a list whose separator-free prefix is followed by the
separator peels off exactly that prefix. -/
theorem jsSplitChar_append {sep : Char} :
    ∀ {pre val : List Char}, sep ∉ pre →
      jsSplitChar sep (pre ++ sep :: val) = pre :: jsSplitChar sep val := by
  intro pre
  induction pre with
  | nil =>
    intro val _
    simp [jsSplitChar]
  | cons c cs ih =>
    intro val h
    have hc : ¬(c = sep) := by
      intro he
      exact h (he ▸ List.mem_cons_self c cs)
    have hcs : sep ∉ cs := fun hm => h (List.mem_cons_of_mem c hm)
    rw [List.cons_append]
    conv_lhs => unfold jsSplitChar
    rw [if_neg hc, ih hcs]

theorem mapOption_isSome {α β : Type} {f : α → Option β} :
    ∀ {l : List α}, (∀ a ∈ l, (f a).isSome = true) → ∃ bs, mapOption f l = some bs := by
  intro l
  induction l with
  | nil => intro _; exact ⟨[], rfl⟩
  | cons a l ih =>
    intro h
    obtain ⟨b, hb⟩ := Option.isSome_iff_exists.mp (h a (List.mem_cons_self a l))
    obtain ⟨bs, hbs⟩ := ih (fun x hx => h x (List.mem_cons_of_mem a hx))
    refine ⟨b :: bs, ?_⟩
    unfold mapOption
    rw [hb, hbs]

theorem mapOption_mem {α β : Type} {f : α → Option β} :
    ∀ {l : List α} {bs : List β}, mapOption f l = some bs →
      ∀ b ∈ bs, ∃ a ∈ l, f a = some b := by
  intro l
  induction l with
  | nil =>
    intro bs h b hb
    unfold mapOption at h
    simp only [Option.some_inj] at h
    rw [← h] at hb
    simp at hb
  | cons a l ih =>
    intro bs h b hb
    unfold mapOption at h
    cases hfa : f a with
    | none => rw [hfa] at h; exact absurd h (by simp)
    | some v =>
      rw [hfa] at h
      cases hml : mapOption f l with
      | none => rw [hml] at h; exact absurd h (by simp)
      | some vs =>
        rw [hml] at h
        simp only [Option.some_inj] at h
        rw [← h] at hb
        rcases List.mem_cons.mp hb with h1 | h2
        · exact ⟨a, List.mem_cons_self a l, h1 ▸ hfa⟩
        · obtain ⟨x, hx1, hx2⟩ := ih hml b h2
          exact ⟨x, List.mem_cons_of_mem a hx1, hx2⟩

/-- Every colon-form match contains a colon. -/
theorem colonFormAt_colon {gap : Char → Bool} {f cs m cap rest : List Char}
    (h : colonFormAt gap f cs = some (m, cap, rest)) : ':' ∈ m := by
  unfold colonFormAt at h
  split at h
  · exact absurd h (by simp)
  · dsimp only at h
    split at h
    · split at h
      · rename_i taken rest1 heq rest2 ws cap2 rest3 hws
        simp only [Option.some_inj, Prod.mk.injEq] at h
        rw [← h.1]
        simp
      · exact absurd h (by simp)
    · exact absurd h (by simp)

/-- Every match collected by the global scan was produced by the pattern
attempt at some suffix. -/
theorem matchAllAux_mem {att : List Char → Option (List Char × List Char × List Char)} :
    ∀ (fuel : Nat) (cs m cap : List Char),
      (m, cap) ∈ matchAllAux att fuel cs →
      ∃ cs' rest, att cs' = some (m, cap, rest) := by
  intro fuel
  induction fuel with
  | zero => intro cs m cap h; simp [matchAllAux] at h
  | succ fuel ih =>
    intro cs m cap h
    cases hat : att cs with
    | some v =>
      obtain ⟨m1, cap1, rest1⟩ := v
      simp only [matchAllAux, hat] at h
      rcases List.mem_cons.mp h with h1 | h2
      · simp only [Prod.mk.injEq] at h1
        exact ⟨cs, rest1, by rw [hat, h1.1, h1.2]⟩
      · exact ih rest1 m cap h2
    | none =>
      cases cs with
      | nil => simp [matchAllAux, hat] at h
      | cons c cs' =>
        simp only [matchAllAux, hat] at h
        exact ih cs' m cap h

theorem splitColonSecond_isSome {m : List Char} (h : ':' ∈ m) :
    (splitColonSecond m).isSome = true := by
  unfold splitColonSecond
  have hlen := jsSplitChar_length_ge_two h
  have h1 : 1 < (jsSplitChar ':' m).length := by omega
  rw [List.getElem?_eq_getElem h1]
  rfl

theorem nsColonEntry_isSome {m : List Char} (h : ':' ∈ m) :
    (nsColonEntry m).isSome = true := by
  unfold nsColonEntry
  have hlen := jsSplitChar_length_ge_two h
  have h1 : 1 < (jsSplitChar ':' m).length := by omega
  rw [List.getElem?_eq_getElem h1]
  rfl

/-- parseMultipleFields never throws. -/
theorem parseMultipleFields_isSome (whoisText field : String) :
    ∃ l, parseMultipleFields whoisText field = some l := by
  unfold parseMultipleFields
  apply mapOption_isSome
  intro mc hmc
  obtain ⟨m, cap⟩ := mc
  obtain ⟨cs', rest, hat⟩ := matchAllAux_mem _ _ _ _ hmc
  exact splitColonSecond_isSome (colonFormAt_colon hat)

/-- The nameserver synonym loop never throws. -/
theorem nsColonLoop_isSome (txt : List Char) :
    ∀ (fs : List String), ∃ r, nsColonLoop txt fs = some r := by
  intro fs
  induction fs with
  | nil =>
    unfold nsColonLoop
    dsimp only
    split
    · exact ⟨_, rfl⟩
    · exact ⟨none, rfl⟩
  | cons f fs ih =>
    unfold nsColonLoop
    dsimp only
    split
    · have hsome : ∃ l, mapOption (fun mc => nsColonEntry mc.1)
          (matchAll (colonFormAt isJsWs f.data) txt) = some l := by
        apply mapOption_isSome
        intro mc hmc
        obtain ⟨m, cap⟩ := mc
        obtain ⟨cs', rest, hat⟩ := matchAllAux_mem _ _ _ _ hmc
        exact nsColonEntry_isSome (colonFormAt_colon hat)
      obtain ⟨l, hl⟩ := hsome
      rw [hl]
      exact ⟨some l, rfl⟩
    · exact ih

/-- The second multi-line attempt never throws. -/
theorem parseNameserversFromIt_isSome (txt : List Char) :
    ∃ r, parseNameserversFromIt txt = some r := by
  unfold parseNameserversFromIt
  split
  · dsimp only
    split
    · exact ⟨_, rfl⟩
    · exact nsColonLoop_isSome txt nsColonFields
  · exact nsColonLoop_isSome txt nsColonFields

/-- parseNameservers never throws. -/
theorem parseNameservers_isSome (whoisText : String) :
    ∃ r, parseNameservers whoisText = some r := by
  unfold parseNameservers
  split
  · dsimp only
    split
    · exact ⟨_, rfl⟩
    · exact parseNameserversFromIt_isSome _
  · exact parseNameserversFromIt_isSome _

/-- The single-line status fallback never throws. -/
theorem parseStatusSingleLine_isSome (whoisText : String) :
    ∃ r, parseStatusSingleLine whoisText = some r := by
  unfold parseStatusSingleLine
  obtain ⟨l, hl⟩ := parseMultipleFields_isSome whoisText "Domain Status"
  rw [hl]
  dsimp only
  split
  · exact ⟨_, rfl⟩
  · exact ⟨none, rfl⟩

/-- parseStatus never throws. -/
theorem parseStatus_isSome (whoisText : String) :
    ∃ r, parseStatus whoisText = some r := by
  unfold parseStatus
  split
  · dsimp only
    split
    · exact ⟨_, rfl⟩
    · exact parseStatusSingleLine_isSome _
  · exact parseStatusSingleLine_isSome _

/-- The parsing engine never throws: every invocation produces a record. -/
theorem parseWhoisData_total (whoisText : String) (domainName : Option String)
    (currentYear : Nat) :
    ∃ r, parseWhoisData whoisText domainName currentYear = some r := by
  unfold parseWhoisData
  obtain ⟨ns, hns⟩ := parseNameservers_isSome whoisText
  obtain ⟨st, hst⟩ := parseStatus_isSome whoisText
  rw [hns]
  dsimp only
  rw [hst]
  exact ⟨_, rfl⟩

/-! ### Field-trimming lemmas -/

theorem parseFieldOne_trim {txt : List Char} {f v : String}
    (h : parseFieldOne txt f = some v) : listTrim v.data = v.data := by
  unfold parseFieldOne at h
  split at h
  · simp only [Option.some_inj] at h
    rw [← h]
    exact listTrim_idem _
  · split at h
    · simp only [Option.some_inj] at h
      rw [← h]
      exact listTrim_idem _
    · exact absurd h (by simp)

theorem parseFieldList_trim {txt : List Char} {v : String} :
    ∀ {fs : List String}, parseFieldList txt fs = some v → listTrim v.data = v.data := by
  intro fs
  induction fs with
  | nil => intro h; simp [parseFieldList] at h
  | cons f fs ih =>
    intro h
    unfold parseFieldList at h
    split at h
    · rename_i w hw
      simp only [Option.some_inj] at h
      exact h ▸ parseFieldOne_trim hw
    · exact ih h

theorem parseField_trim {whoisText field : String} {alts : List String} {v : String}
    (h : parseField whoisText field alts = some v) : listTrim v.data = v.data :=
  parseFieldList_trim h

theorem creationRaw_trim {txt : List Char} {v : String}
    (h : creationRaw txt = some v) : listTrim v.data = v.data := by
  unfold creationRaw at h
  cases hf : firstCapture txt _ with
  | none => rw [hf] at h; exact absurd h (by simp)
  | some cap =>
    rw [hf] at h
    simp only [Option.map_some', Option.some_inj] at h
    rw [← h]
    exact listTrim_idem _

theorem expiryRaw_trim {txt : List Char} {v : String}
    (h : expiryRaw txt = some v) : listTrim v.data = v.data := by
  unfold expiryRaw at h
  cases hf : firstCapture txt _ with
  | none => rw [hf] at h; exact absurd h (by simp)
  | some cap =>
    rw [hf] at h
    simp only [Option.map_some', Option.some_inj] at h
    rw [← h]
    exact listTrim_idem _

theorem parseCreationDate_good {whoisText : String} {y : Nat} {s : String}
    (h : parseCreationDate whoisText y = some s) :
    listTrim s.data = s.data ∧ s ≠ "" := by
  unfold parseCreationDate at h
  cases hr : creationRaw whoisText.data with
  | none => rw [hr] at h; exact absurd h (by simp)
  | some raw =>
    rw [hr] at h
    exact normalizeDateString_good (creationRaw_trim hr) h

theorem parseExpiryDate_good {whoisText : String} {y : Nat} {s : String}
    (h : parseExpiryDate whoisText y = some s) :
    listTrim s.data = s.data ∧ s ≠ "" := by
  unfold parseExpiryDate at h
  cases hr : expiryRaw whoisText.data with
  | none => rw [hr] at h; exact absurd h (by simp)
  | some raw =>
    rw [hr] at h
    exact normalizeDateString_good (expiryRaw_trim hr) h

/-! ### Nameserver-entry lemmas -/

theorem firstWsToken_no_ws {l : List Char} : ∀ c ∈ firstWsToken l, isJsWs c = false := by
  intro c hc
  have := List.mem_takeWhile_imp hc
  simpa using this

theorem stripTrailingDot_subset {l : List Char} : ∀ c ∈ stripTrailingDot l, c ∈ l := by
  intro c hc
  unfold stripTrailingDot at hc
  split at hc
  · exact List.dropLast_subset _ hc
  · exact hc

theorem nsBlockLines_no_ws {inner : List Char} :
    ∀ e ∈ nsBlockLines inner, ∀ c ∈ e.data, isJsWs c = false := by
  intro e he c hc
  unfold nsBlockLines at he
  obtain ⟨l, _, hl⟩ := List.mem_map.mp he
  rw [← hl] at hc
  exact firstWsToken_no_ws c hc

theorem nsColonEntry_no_ws {m : List Char} {e : String}
    (h : nsColonEntry m = some e) : ∀ c ∈ e.data, isJsWs c = false := by
  intro c hc
  unfold nsColonEntry at h
  split at h
  · rename_i v hv
    simp only [Option.some_inj] at h
    rw [← h] at hc
    exact firstWsToken_no_ws c (stripTrailingDot_subset c hc)
  · exact absurd h (by simp)

theorem nsBracketEntry_no_ws (m : List Char) :
    ∀ c ∈ (nsBracketEntry m).data, isJsWs c = false := by
  intro c hc
  unfold nsBracketEntry at hc
  exact firstWsToken_no_ws c hc

theorem mapOption_length {α β : Type} {f : α → Option β} :
    ∀ {l : List α} {bs : List β}, mapOption f l = some bs → bs.length = l.length := by
  intro l
  induction l with
  | nil =>
    intro bs h
    unfold mapOption at h
    simp only [Option.some_inj] at h
    rw [← h]
    rfl
  | cons a l ih =>
    intro bs h
    unfold mapOption at h
    cases hfa : f a with
    | none => rw [hfa] at h; exact absurd h (by simp)
    | some b =>
      rw [hfa] at h
      cases hml : mapOption f l with
      | none => rw [hml] at h; exact absurd h (by simp)
      | some vs =>
        rw [hml] at h
        simp only [Option.some_inj] at h
        rw [← h]
        simp [ih hml]

/-- Entries from the synonym loop contain no whitespace, and a successful
list is nonempty. -/
theorem nsColonLoop_entries {txt : List Char} :
    ∀ {fs : List String} {l : List String},
      nsColonLoop txt fs = some (some l) →
      l ≠ [] ∧ ∀ e ∈ l, ∀ c ∈ e.data, isJsWs c = false := by
  intro fs
  induction fs with
  | nil =>
    intro l h
    unfold nsColonLoop at h
    dsimp only at h
    split at h
    · rename_i hlen
      simp only [Option.some_inj] at h
      rw [← h]
      constructor
      · intro he
        rw [List.map_eq_nil_iff] at he
        rw [he] at hlen
        simp at hlen
      · intro e hee c hc
        obtain ⟨mc, _, hmc⟩ := List.mem_map.mp hee
        rw [← hmc] at hc
        exact nsBracketEntry_no_ws mc.1 c hc
    · exact absurd h (by simp)
  | cons f fs ih =>
    intro l h
    unfold nsColonLoop at h
    dsimp only at h
    split at h
    · rename_i hlen
      split at h
      · rename_i l2 hl2
        simp only [Option.some_inj] at h
        rw [← h]
        constructor
        · intro he
          rw [he] at hl2
          have := mapOption_length hl2
          simp at this
          rw [← this] at hlen
          simp at hlen
        · intro e hee c hc
          obtain ⟨mc, _, hmc⟩ := mapOption_mem hl2 e hee
          exact nsColonEntry_no_ws hmc c hc
      · exact absurd h (by simp)
    · exact ih h

/-- parseNameservers yields a nonempty list of whitespace-free entries
whenever it yields a list at all. -/
theorem parseNameservers_entries {whoisText : String} {l : List String}
    (h : parseNameservers whoisText = some (some l)) :
    l ≠ [] ∧ ∀ e ∈ l, ∀ c ∈ e.data, isJsWs c = false := by
  have hblock : ∀ inner : List Char,
      (some (some (nsBlockLines inner)) : Option (Option (List String))) = some (some l) →
      nsBlockLines inner ≠ [] → l ≠ [] ∧ ∀ e ∈ l, ∀ c ∈ e.data, isJsWs c = false := by
    intro inner hi hne
    simp only [Option.some_inj] at hi
    rw [← hi]
    exact ⟨hne, nsBlockLines_no_ws⟩
  have hfromIt : parseNameserversFromIt whoisText.data = some (some l) →
      l ≠ [] ∧ ∀ e ∈ l, ∀ c ∈ e.data, isJsWs c = false := by
    intro hfi
    unfold parseNameserversFromIt at hfi
    split at hfi
    · dsimp only at hfi
      split at hfi
      · rename_i hlen
        exact hblock _ hfi (by intro he; rw [he] at hlen; simp at hlen)
      · exact nsColonLoop_entries hfi
    · exact nsColonLoop_entries hfi
  unfold parseNameservers at h
  split at h
  · dsimp only at h
    split at h
    · rename_i hlen
      exact hblock _ h (by intro he; rw [he] at hlen; simp at hlen)
    · exact hfromIt h
  · exact hfromIt h

/-! ### Year-independence lemmas -/

theorem parseCreationDate_year_irrel {whoisText : String} (y1 y2 : Nat)
    (h : noRecurring (creationRaw whoisText.data) = true) :
    parseCreationDate whoisText y1 = parseCreationDate whoisText y2 := by
  unfold parseCreationDate
  cases hr : creationRaw whoisText.data with
  | none => rfl
  | some raw =>
    unfold noRecurring at h
    rw [hr] at h
    exact normalizeDateString_year_irrel y1 y2 (Option.isNone_iff_eq_none.mp h)

theorem parseExpiryDate_year_irrel {whoisText : String} (y1 y2 : Nat)
    (h : noRecurring (expiryRaw whoisText.data) = true) :
    parseExpiryDate whoisText y1 = parseExpiryDate whoisText y2 := by
  unfold parseExpiryDate
  cases hr : expiryRaw whoisText.data with
  | none => rfl
  | some raw =>
    unfold noRecurring at h
    rw [hr] at h
    exact normalizeDateString_year_irrel y1 y2 (Option.isNone_iff_eq_none.mp h)

/-! ### Colon-splitting characterization -/

theorem jsSplitChar_no_sep {sep : Char} :
    ∀ {val : List Char}, sep ∉ val → jsSplitChar sep val = [val] := by
  intro val
  induction val with
  | nil => intro _; rfl
  | cons c cs ih =>
    intro h
    have hc : ¬(c = sep) := by
      intro he
      exact h (he ▸ List.mem_cons_self c cs)
    have hcs : sep ∉ cs := fun hm => h (List.mem_cons_of_mem c hm)
    unfold jsSplitChar
    rw [if_neg hc, ih hcs]

/-! ### Claim theorems -/

/-- C1 counterexample: on the empty string — a falsy JavaScript value — the
date normalizer returns null rather than a string, so the claim's "for every
input string, returns a string" and its identity law both fail at the
concrete input `""`. -/
theorem normalizeDateString_empty_counterexample :
    normalizeDateString 2025 "" = none ∧
      ¬ normalizeDateString 2025 "" = some "" := by decide

/-- C1 (amended): for every nonempty input string the date normalizer
returns a string; the rules are tried in order with the first match winning;
the three supported shapes yield the canonical zero-padded form
(`normalize "30th April 2003" = "2003-04-30T00:00:00Z"` and so on); and a
nonempty input matching no rule is returned unchanged. -/
theorem normalizeDateString_contract :
    (∀ (y : Nat) (s : String), s ≠ "" → (normalizeDateString y s).isSome = true) ∧
    (∀ y : Nat, normalizeDateString y "30th April 2003" = some "2003-04-30T00:00:00Z") ∧
    (∀ y : Nat, normalizeDateString y "2005/05/30" = some "2005-05-30T00:00:00Z") ∧
    (∀ y : Nat, normalizeDateString y "2007. 03. 02." = some "2007-03-02T00:00:00Z") ∧
    (∀ (y : Nat) (s : String), s ≠ "" → ggRule s.data = none → recRule y s.data = none →
      jpRule s.data = none → krRule s.data = none → normalizeDateString y s = some s) := by
  refine ⟨normalizeDateString_isSome, ?_, ?_, ?_, normalizeDateString_id⟩
  · intro y
    unfold normalizeDateString
    rw [if_neg (by decide),
      show ggRule "30th April 2003".data = some "2003-04-30T00:00:00Z" from by decide]
  · intro y
    have hrec : recRule y "2005/05/30".data = none := by
      unfold recRule
      rw [show searchPos recAt "2005/05/30".data = none from by decide]
    unfold normalizeDateString
    rw [if_neg (by decide), show ggRule "2005/05/30".data = none from by decide, hrec,
      show jpRule "2005/05/30".data = some "2005-05-30T00:00:00Z" from by decide]
  · intro y
    have hrec : recRule y "2007. 03. 02.".data = none := by
      unfold recRule
      rw [show searchPos recAt "2007. 03. 02.".data = none from by decide]
    unfold normalizeDateString
    rw [if_neg (by decide), show ggRule "2007. 03. 02.".data = none from by decide, hrec,
      show jpRule "2007. 03. 02.".data = none from by decide,
      show krRule "2007. 03. 02.".data = some "2007-03-02T00:00:00Z" from by decide]

/-- C1 witness: the amended contract applied at concrete inputs. -/
theorem normalizeDateString_contract_witness :
    (normalizeDateString 2025 "x").isSome = true ∧
      normalizeDateString 2025 "abc" = some "abc" :=
  ⟨normalizeDateString_contract.1 2025 "x" (by decide),
   normalizeDateString_contract.2.2.2.2 2025 "abc" (by decide) (by decide) (by decide)
     (by decide) (by decide)⟩

/-- C2 (code bug): a text whose status lines use only the label `state:`
(here the `.ru` convention) carries extractable values — the generic
multi-value extractor finds them — yet parseStatus returns null, because the
source chains the three parseMultipleFields results with `||` and a
JavaScript array is truthy even when empty, so the `Status` and `state`
synonyms are dead code; the same happens for a text using only `Status:`. -/
theorem parseStatus_fallback_synonyms_dead :
    parseStatus "state: REGISTERED, DELEGATED, VERIFIED\n" = some none ∧
    parseMultipleFields "state: REGISTERED, DELEGATED, VERIFIED\n" "state" =
      some ["REGISTERED, DELEGATED, VERIFIED"] ∧
    parseStatus "Status: clientTransferProhibited\n" = some none ∧
    parseMultipleFields "Status: clientTransferProhibited\n" "Status" =
      some ["clientTransferProhibited"] := by decide

/-- C5: an input in which the recurring shape
`<day><ordinal> <MonthName> each year` fires (and the dated first rule does
not) resolves to the calendar year after the year current at the moment of
normalization — unconditionally the next year, whatever the anchor month and
day are, since the rule never reads the current month or day at all. -/
theorem recurring_rule_next_year (y : Nat) (s : String) (day mon : List Char)
    (mm : String) (hgg : ggRule s.data = none)
    (hrec : searchPos recAt s.data = some (day, mon))
    (hm : monthMap (toLowerList mon) = some mm) :
    normalizeDateString y s = some (isoFmt (natRepr (y + 1)) mm.data (padStart2 day)) := by
  have hne : s ≠ "" := by
    intro he
    rw [he] at hrec
    rw [show searchPos recAt ("" : String).data = none from by decide] at hrec
    exact absurd hrec (by simp)
  unfold normalizeDateString
  rw [if_neg hne, hgg]
  unfold recRule
  rw [hrec]
  dsimp only
  rw [hm]

/-- C5 witness: normalized in 2025, the recurring anchor resolves to 2026. -/
theorem recurring_rule_next_year_witness :
    normalizeDateString 2025 "30th April each year" = some "2026-04-30T00:00:00Z" :=
  (recurring_rule_next_year 2025 "30th April each year" "30".data "April".data "04"
    (by decide) (by decide) (by decide)).trans (by decide)

/-- C10: the date normalizer performs no calendar validation — inputs whose
digits denote no real month or day are still reformatted verbatim into
canonical-looking output by the digit-shape rules and the ordinal rule. -/
theorem normalizeDateString_no_calendar_validation :
    normalizeDateString 2025 "2005/99/99" = some "2005-99-99T00:00:00Z" ∧
    normalizeDateString 2025 "2007. 99. 99." = some "2007-99-99T00:00:00Z" ∧
    normalizeDateString 2025 "99th April 2003" = some "2003-04-99T00:00:00Z" := by decide

/-- C3 counterexample: an entry produced by the `Name servers:` block
strategy from a value ending in a dot keeps its trailing dot — the claim's
"regardless of which strategy produced it" fails at this concrete input. -/
theorem nameservers_block_keeps_trailing_dot :
    parseNameservers "Name servers:\n     ns1.example.com.\n\nWHOIS lookup made at 10:00" =
      some (some ["ns1.example.com."]) ∧
    ¬ parseNameservers "Name servers:\n     ns1.example.com.\n\nWHOIS lookup made at 10:00" =
      some (some ["ns1.example.com"]) := by decide

/-- C3 (amended): every entry in any returned nameservers list is the first
whitespace-delimited token of its line or value, so trailing IP annotations
are always dropped and no entry contains whitespace; a trailing dot,
however, is stripped only by the colon-form strategy, as in the
`Nserver: ns1.yandex.ru. 213.180.193.1` example. -/
theorem nameservers_entries_tokens :
    parseNameservers "Nserver: ns1.yandex.ru. 213.180.193.1" = some (some ["ns1.yandex.ru"]) ∧
    ∀ (whoisText : String) (l : List String),
      parseNameservers whoisText = some (some l) →
      ∀ e ∈ l, ∀ c ∈ e.data, isJsWs c = false :=
  ⟨by decide, fun _ _ h => (parseNameservers_entries h).2⟩

/-- C3 witness: the general clause applied to the `.ru` example. -/
theorem nameservers_entries_tokens_witness : isJsWs 'u' = false :=
  nameservers_entries_tokens.2 "Nserver: ns1.yandex.ru. 213.180.193.1" ["ns1.yandex.ru"]
    (by decide) "ns1.yandex.ru" (by decide) 'u' (by decide)

/-- C4 counterexample: on a line whose value contains further colons the
colon-form entry is the text between the first and second colon, not
everything after the first colon, so the IPv6-style value is truncated. -/
theorem nameservers_ipv6_truncated :
    parseNameservers "nserver: 2001:db8::1" = some (some ["2001"]) ∧
    ¬ parseNameservers "nserver: 2001:db8::1" = some (some ["2001:db8::1"]) := by decide

/-- C4 (amended): the colon-form entry of a match is computed from the text
between the match's first and second colon — equal to everything after the
first colon exactly when the value contains no further colon — trimmed,
first whitespace-delimited token kept, one trailing dot stripped; a value
with further colons is truncated at its second colon. -/
theorem nsColonEntry_between_first_and_second_colon :
    (∀ pre val : List Char, ':' ∉ pre → ':' ∉ val →
      nsColonEntry (pre ++ ':' :: val) =
        some (String.mk (stripTrailingDot (firstWsToken (listTrim val))))) ∧
    (∀ pre v1 v2 : List Char, ':' ∉ pre → ':' ∉ v1 →
      nsColonEntry (pre ++ ':' :: (v1 ++ ':' :: v2)) =
        some (String.mk (stripTrailingDot (firstWsToken (listTrim v1))))) ∧
    parseNameservers "nserver: 2001:db8::1" = some (some ["2001"]) := by
  refine ⟨?_, ?_, by decide⟩
  · intro pre val hpre hval
    unfold nsColonEntry
    rw [jsSplitChar_append hpre, jsSplitChar_no_sep hval]
    rfl
  · intro pre v1 v2 hpre hv1
    unfold nsColonEntry
    rw [jsSplitChar_append hpre, jsSplitChar_append hv1]
    simp

/-- C4 witness: the colon-free clause applied to a concrete `.de`-style
line. -/
theorem nsColonEntry_between_first_and_second_colon_witness :
    nsColonEntry ("nserver".data ++ ':' :: " ns1.example.com.".data) =
      some (String.mk (stripTrailingDot (firstWsToken (listTrim " ns1.example.com.".data)))) :=
  nsColonEntry_between_first_and_second_colon.1 "nserver".data " ns1.example.com.".data
    (by decide) (by decide)

/-- C8: for every raw text, fallback domain and current year, parseWhoisData
terminates with a record — the potentially throwing subexpressions
(`match.split(':')[1].trim()` in the multi-value and nameserver extractors)
are always applied to matches that contain a colon, so nothing is ever
thrown and unmatched fields surface as null fields of the record. -/
theorem parseWhoisData_never_raises (whoisText : String) (domainName : Option String)
    (currentYear : Nat) :
    ∃ r, parseWhoisData whoisText domainName currentYear = some r :=
  parseWhoisData_total whoisText domainName currentYear

/-- C9: the nameservers field is null or a nonempty list — every strategy
returns only after producing at least one entry, and when none does the
field is null, never an empty list. -/
theorem parseNameservers_null_or_nonempty (whoisText : String) :
    parseNameservers whoisText = some none ∨
      ∃ l, parseNameservers whoisText = some (some l) ∧ l ≠ [] := by
  obtain ⟨r, hr⟩ := parseNameservers_isSome whoisText
  cases r with
  | none => exact Or.inl hr
  | some l => exact Or.inr ⟨l, hr, (parseNameservers_entries hr).1⟩

set_option maxRecDepth 40000 in
/-- C6 counterexample: a label whose value text is whitespace-only yields
the empty string, not null — `"Registrar: "` (label, colon, one trailing
space at end of text) parses to a record whose registrar is `some ""` — and
a caller-supplied fallback domain is passed through verbatim, untrimmed. -/
theorem parseWhoisData_empty_string_counterexample :
    parseWhoisData "Registrar: " none 2025 = some
      { domainName := none, registrar := some "", creationDate := none,
        expirationDate := none, nameservers := none, registrant := none,
        status := none, dnssec := none, lastModified := none } ∧
    parseWhoisData "" (some " x ") 2025 = some
      { domainName := some " x ", registrar := none, creationDate := none,
        expirationDate := none, nameservers := none, registrant := none,
        status := none, dnssec := none, lastModified := none } ∧
    ¬ jsTrimStr " x " = " x " := by decide

/-- C6 (amended): every non-null string field of the returned record that is
extracted from the text is a trimmed string (a fixed point of trimming); the
two date fields are moreover never empty, and so is a domainName obtained
without a fallback; but the parseField-derived fields (registrar,
registrant, dnssec, lastModified) can be the empty string when the matched
value is whitespace-only, and a caller-supplied fallback domainName is
returned verbatim. -/
theorem parseWhoisData_fields_trimmed (whoisText : String) (domainName : Option String)
    (currentYear : Nat) (r : DomainRecord)
    (h : parseWhoisData whoisText domainName currentYear = some r) :
    (∀ s, r.registrar = some s → listTrim s.data = s.data) ∧
    (∀ s, r.registrant = some s → listTrim s.data = s.data) ∧
    (∀ s, r.dnssec = some s → listTrim s.data = s.data) ∧
    (∀ s, r.lastModified = some s → listTrim s.data = s.data) ∧
    (∀ s, r.creationDate = some s → listTrim s.data = s.data ∧ s ≠ "") ∧
    (∀ s, r.expirationDate = some s → listTrim s.data = s.data ∧ s ≠ "") ∧
    (domainName = none →
      r.domainName = none ∨
        ∃ s, r.domainName = some s ∧ listTrim s.data = s.data ∧ s ≠ "") := by
  unfold parseWhoisData at h
  cases hns : parseNameservers whoisText with
  | none => rw [hns] at h; exact absurd h (by simp)
  | some ns =>
    rw [hns] at h
    dsimp only at h
    cases hst : parseStatus whoisText with
    | none => rw [hst] at h; exact absurd h (by simp)
    | some st =>
      rw [hst] at h
      dsimp only at h
      simp only [Option.some_inj] at h
      subst h
      refine ⟨?_, ?_, ?_, ?_, ?_, ?_, ?_⟩
      · intro s hs; exact parseField_trim hs
      · intro s hs; exact parseField_trim hs
      · intro s hs; exact parseField_trim hs
      · intro s hs; exact parseField_trim hs
      · intro s hs; exact parseCreationDate_good hs
      · intro s hs; exact parseExpiryDate_good hs
      · intro hd
        subst hd
        cases hpd : parseField whoisText "Domain" ["Domain Name", "domain name", "domain"] with
        | none => left; rfl
        | some s =>
          by_cases hse : s = ""
          · left
            show jsOrStr (some s) none = none
            unfold jsOrStr
            dsimp only
            rw [if_pos hse]
          · right
            refine ⟨s, ?_, parseField_trim hpd, hse⟩
            show jsOrStr (some s) none = some s
            unfold jsOrStr
            dsimp only
            rw [if_neg hse]

set_option maxRecDepth 40000 in
/-- C6 witness: the trimming clauses applied to a concrete parse. -/
theorem parseWhoisData_fields_trimmed_witness :
    listTrim "google".data = "google".data := by
  have h : parseWhoisData "Registrar: google" none 2025 = some
      { domainName := none, registrar := some "google", creationDate := none,
        expirationDate := none, nameservers := none, registrant := none,
        status := none, dnssec := none, lastModified := none } := by decide
  exact (parseWhoisData_fields_trimmed "Registrar: google" none 2025 _ h).1 "google" rfl

set_option maxRecDepth 40000 in
/-- C7 counterexample: parseWhoisData reads the wall clock through the
recurring-date rule — parsing the same text in two different calendar years
yields records with different expiration dates. -/
theorem parseWhoisData_wall_clock_counterexample :
    ¬ parseWhoisData "paid-till: 30th April each year" none 2025 =
        parseWhoisData "paid-till: 30th April each year" none 2026 := by decide

/-- C7 (amended): parseWhoisData is a pure function of the raw text, the
fallback domain and the calendar year at call time; its only dependence on
the moment of invocation is the recurring-date rule, so whenever neither
extracted raw date text contains the recurring shape, invocations at any two
moments — any two current years — return structurally identical records. -/
theorem parseWhoisData_time_invariant (whoisText : String) (domainName : Option String)
    (y1 y2 : Nat) (hc : noRecurring (creationRaw whoisText.data) = true)
    (he : noRecurring (expiryRaw whoisText.data) = true) :
    parseWhoisData whoisText domainName y1 = parseWhoisData whoisText domainName y2 := by
  unfold parseWhoisData
  rw [parseCreationDate_year_irrel y1 y2 hc, parseExpiryDate_year_irrel y1 y2 he]

set_option maxRecDepth 40000 in
/-- C7 witness: a dated creation date parses identically in 2025 and 2026. -/
theorem parseWhoisData_time_invariant_witness :
    parseWhoisData "created: 2005/05/30" none 2025 =
      parseWhoisData "created: 2005/05/30" none 2026 :=
  parseWhoisData_time_invariant "created: 2005/05/30" none 2025 2026 (by decide) (by decide)
